import Mathlib

/-!
Verification of the embedding retrieval engine of the python-llm repository:
the embedding store with idempotent upsert (src/db/database.py,
src/openai-embedding/generate_embeddings.py), the nearest-neighbor similarity
search (DatabaseConnection.find_similar_embeddings), the budget-constrained
context assembler (RAGChatbot.construct_context in src/openai-chat/chatbot.py)
and the ingestion pipeline (EmbeddingGenerator.process_documents).

Modelling conventions:
* Python floats are modelled as rationals (ℚ).
* The pgvector cosine-distance operator `<=>` is an external collaborator
  (the spec treats the nearest-neighbor primitive as an opaque external
  component), so the search model takes it as an explicit function parameter
  `dist : List ℚ → List ℚ → ℚ`; every theorem quantifies over it.
* The `embeddings` table is a list of rows in physical row order together
  with the vector column's declared dimension, the id sequence and a logical
  clock standing for `CURRENT_TIMESTAMP`.  A PostgreSQL
  `ON CONFLICT ... DO UPDATE` rewrites the conflicting row, which moves it to
  the end of the physical heap; the model mirrors that (remove + append).
* A failing statement (dimension mismatch on insert or search) raises in
  Python, is caught by the surrounding `except`, rolls the transaction back
  and returns the function's error value (`None` / `False`); the model returns
  that error value with the state unchanged.
* `json.loads` (used on stored metadata by the chatbot read path) is external
  library code and is modelled as a parameter
  `jsonParse : String → Option (List (String × String))`, `none` standing for
  a raised `json.JSONDecodeError`.
-/

/-- A row of the `embeddings` table (schema of src/db: columns id,
document_id, content_chunk, embedding, chunk_index, metadata, created_at;
metadata is stored as a JSON object, modelled as a string-keyed map). -/
structure EmbeddingRecord where
  id : Nat
  document_id : Nat
  content_chunk : String
  embedding : List ℚ
  chunk_index : Nat
  metadata : List (String × String)
  created_at : Nat
deriving DecidableEq

/-- The `embeddings` table: rows in physical order, the declared vector
dimension of the `embedding` column, the id sequence, and a logical clock
standing for `CURRENT_TIMESTAMP`. -/
structure EmbeddingsTable where
  rows : List EmbeddingRecord
  dim : Nat
  nextId : Nat
  clock : Nat
deriving DecidableEq

/-- The `(document_id, chunk_index)` key test used by the table's unique
constraint `ON CONFLICT (document_id, chunk_index)`. -/
def keyMatches (document_id chunk_index : Nat) (r : EmbeddingRecord) : Bool :=
  r.document_id == document_id && r.chunk_index == chunk_index

/-- Model of `DatabaseConnection.insert_embedding` (src/db/database.py:67-94):
`INSERT ... ON CONFLICT (document_id, chunk_index) DO UPDATE SET
content_chunk = EXCLUDED.content_chunk, embedding = EXCLUDED.embedding,
metadata = EXCLUDED.metadata, created_at = CURRENT_TIMESTAMP RETURNING id`,
committed on success; on any error the transaction is rolled back and the
function returns `None`.  A vector whose length differs from the declared
dimension of the `embedding` column is rejected by the storage layer, which
is the insert-time failure this model captures. -/
def insert_embedding (s : EmbeddingsTable) (document_id : Nat)
    (content_chunk : String) (embedding : List ℚ) (chunk_index : Nat)
    (metadata : List (String × String)) : Option Nat × EmbeddingsTable :=
  if embedding.length ≠ s.dim then
    (none, s)
  else
    match s.rows.find? (keyMatches document_id chunk_index) with
    | some old =>
        (some old.id,
          { s with
            rows := s.rows.filter (fun r => ¬ keyMatches document_id chunk_index r)
              ++ [{ old with
                    content_chunk := content_chunk
                    embedding := embedding
                    metadata := metadata
                    created_at := s.clock }]
            clock := s.clock + 1 })
    | none =>
        (some s.nextId,
          { s with
            rows := s.rows ++
              [{ id := s.nextId
                 document_id := document_id
                 content_chunk := content_chunk
                 embedding := embedding
                 chunk_index := chunk_index
                 metadata := metadata
                 created_at := s.clock }]
            nextId := s.nextId + 1
            clock := s.clock + 1 })

/-- Model of `EmbeddingGenerator.insert_embedding`
(src/openai-embedding/generate_embeddings.py:105-129): the same SQL statement,
but the function returns `True` on success and `False` on a rolled-back
failure. -/
def gen_insert_embedding (s : EmbeddingsTable) (document_id : Nat)
    (content : String) (embedding : List ℚ) (chunk_index : Nat)
    (metadata : List (String × String)) : Bool × EmbeddingsTable :=
  let r := insert_embedding s document_id content embedding chunk_index metadata
  (r.1.isSome, r.2)

/-- Model of `EmbeddingGenerator.check_embedding_exists`
(src/openai-embedding/generate_embeddings.py:91-103):
`SELECT id FROM embeddings WHERE document_id = %s AND chunk_index = %s`,
true iff a row is found. -/
def check_embedding_exists (s : EmbeddingsTable) (document_id : Nat)
    (chunk_index : Nat) : Bool :=
  (s.rows.find? (keyMatches document_id chunk_index)).isSome

/-- A row of the `documents` table as read by
`EmbeddingGenerator.get_all_documents` (id, filename, content, file_type,
file_size, processed_at; the timestamp is modelled as the string its
`.isoformat()` produces, `""` for SQL NULL). -/
structure Document where
  id : Nat
  filename : String
  content : String
  file_type : String
  file_size : Nat
  processed_at : String
deriving DecidableEq

/-- Model of `EmbeddingGenerator.get_all_documents`
(src/openai-embedding/generate_embeddings.py:74-89):
`SELECT ... FROM documents WHERE content IS NOT NULL AND content != ''
ORDER BY id`. -/
def get_all_documents (docs : List Document) : List Document :=
  List.insertionSort (fun a b => a.id ≤ b.id) (docs.filter (fun d => d.content ≠ ""))

/-- The metadata dict built for each document in
`EmbeddingGenerator.process_documents`
(src/openai-embedding/generate_embeddings.py:167-175); non-string values are
modelled by their rendered form. -/
def docMetadata (doc : Document) : List (String × String) :=
  [("filename", doc.filename),
   ("file_type", doc.file_type),
   ("file_size", toString doc.file_size),
   ("processed_at", doc.processed_at),
   ("content_length", toString doc.content.length),
   ("embedding_model", "text-embedding-3-small")]

/-- The processed / skipped / error counters reported by
`EmbeddingGenerator.process_documents`. -/
structure IngestCounts where
  processed : Nat
  skipped : Nat
  errors : Nat
deriving DecidableEq

/-- One iteration of the loop of `EmbeddingGenerator.process_documents`
(src/openai-embedding/generate_embeddings.py:145-183): skip if the embedding
already exists, otherwise call the provider (`embed`, an external
collaborator; `none` models a failed call), then insert, counting the
outcome. -/
def processOneDocument (embed : String → Option (List ℚ))
    (st : IngestCounts × EmbeddingsTable) (doc : Document) :
    IngestCounts × EmbeddingsTable :=
  let c := st.1
  let s := st.2
  if check_embedding_exists s doc.id 0 then
    ({ c with skipped := c.skipped + 1 }, s)
  else
    match embed doc.content with
    | none => ({ c with errors := c.errors + 1 }, s)
    | some emb =>
        let r := gen_insert_embedding s doc.id doc.content emb 0 (docMetadata doc)
        if r.1 then ({ c with processed := c.processed + 1 }, r.2)
        else ({ c with errors := c.errors + 1 }, r.2)

/-- Model of `EmbeddingGenerator.process_documents`
(src/openai-embedding/generate_embeddings.py:131-183): a fold of
`processOneDocument` over the documents `get_all_documents` returns, starting
from zero counters. -/
def process_documents (embed : String → Option (List ℚ))
    (docs : List Document) (s : EmbeddingsTable) :
    IngestCounts × EmbeddingsTable :=
  (get_all_documents docs).foldl (processOneDocument embed) (⟨0, 0, 0⟩, s)

/-- A row of the result set of
`DatabaseConnection.find_similar_embeddings`: the SELECT list id,
document_id, content_chunk, `1 - (embedding <=> query)` as similarity,
metadata. -/
structure SearchResult where
  id : Nat
  document_id : Nat
  content_chunk : String
  similarity : ℚ
  metadata : List (String × String)
deriving DecidableEq

/-- The SELECT list of `find_similar_embeddings` applied to one row:
similarity is `1 - (e.embedding <=> %s::vector)`. -/
def toSearchResult (dist : List ℚ → List ℚ → ℚ) (q : List ℚ)
    (r : EmbeddingRecord) : SearchResult :=
  { id := r.id
    document_id := r.document_id
    content_chunk := r.content_chunk
    similarity := 1 - dist r.embedding q
    metadata := r.metadata }

/-- The WHERE clause of `find_similar_embeddings`:
`1 - (e.embedding <=> %s::vector) >= %s`. -/
def rowQualifies (dist : List ℚ → List ℚ → ℚ) (q : List ℚ) (t : ℚ)
    (r : EmbeddingRecord) : Bool :=
  decide (t ≤ 1 - dist r.embedding q)

/-- The ORDER BY key comparison of `find_similar_embeddings`:
`ORDER BY e.embedding <=> %s::vector` (ascending distance, no further
tie-break column). -/
def distLE (dist : List ℚ → List ℚ → ℚ) (q : List ℚ)
    (a b : EmbeddingRecord) : Prop :=
  dist a.embedding q ≤ dist b.embedding q

instance (dist : List ℚ → List ℚ → ℚ) (q : List ℚ) :
    DecidableRel (distLE dist q) :=
  fun a b => inferInstanceAs (Decidable (dist a.embedding q ≤ dist b.embedding q))

/-- Model of `DatabaseConnection.find_similar_embeddings` (src/db/database.py:96-120):
filter by the similarity threshold, order by distance ascending, `LIMIT`
max_results, and project each row through the SELECT list.  Comparing the
query vector with a stored vector of a different length raises inside
pgvector; the surrounding `except` then makes the function return `None`
(while an empty result set is returned as the empty list, not `None`). -/
def find_similar_embeddings (dist : List ℚ → List ℚ → ℚ)
    (rows : List EmbeddingRecord) (q : List ℚ) (t : ℚ) (k : Nat) :
    Option (List SearchResult) :=
  if rows.any (fun r => r.embedding.length ≠ q.length) then
    none
  else
    some ((((rows.filter (rowQualifies dist q t)).insertionSort
      (distLE dist q)).take k).map (toSearchResult dist q))

/-- The metadata column value as the chatbot's read path sees it: either an
already-decoded mapping or the raw stored string (the code handles both:
`if isinstance(metadata, str): metadata = json.loads(metadata)`). -/
inductive MetadataValue
  | dict (entries : List (String × String))
  | str (s : String)
deriving DecidableEq

/-- A relevant document as consumed by `RAGChatbot.construct_context`
(src/openai-chat/chatbot.py:101-136): the fields the function reads from each
search result dict. -/
structure RetrievedDoc where
  document_id : Nat
  content_chunk : String
  similarity : ℚ
  metadata : MetadataValue
deriving DecidableEq

/-- Python's fixed-point formatting `f"{x:.2f}"` on an exact rational: round
the value to hundredths, half to even, and render sign, integer part, a dot
and two digits. -/
def fmtFixed2 (x : ℚ) : String :=
  let t : Int := x.num * 100
  let d : Int := (x.den : Int)
  let lo : Int := Int.fdiv t d
  let rem : Int := Int.fmod t d
  let c : Int :=
    if 2 * rem < d then lo
    else if d < 2 * rem then lo + 1
    else if lo % 2 = 0 then lo else lo + 1
  let sign := if c < 0 then "-" else ""
  let a := c.natAbs
  sign ++ toString (a / 100) ++ "." ++
    (if a % 100 < 10 then "0" else "") ++ toString (a % 100)

/-- The metadata mapping `construct_context` works with for one document
(src/openai-chat/chatbot.py:110-117): the value itself when it is already a
mapping, the parsed string when it parses, and the empty mapping when
`json.loads` raises. -/
def docMetadataMap (jsonParse : String → Option (List (String × String)))
    (doc : RetrievedDoc) : List (String × String) :=
  match doc.metadata with
  | .dict m => m
  | .str s => (jsonParse s).getD []

/-- The document header of `construct_context`
(src/openai-chat/chatbot.py:119-123):
`f"Document {i}: {filename} (Relevance: {similarity:.2f})"`, where filename
defaults to `f"Document {document_id}"` when the metadata has no
`filename` key. -/
def docHeader (jsonParse : String → Option (List (String × String)))
    (i : Nat) (doc : RetrievedDoc) : String :=
  let filename := ((docMetadataMap jsonParse doc).lookup "filename").getD
    ("Document " ++ toString doc.document_id)
  "Document " ++ toString i ++ ": " ++ filename ++
    " (Relevance: " ++ fmtFixed2 doc.similarity ++ ")"

/-- One formatted block of `construct_context`
(src/openai-chat/chatbot.py:127):
`f"{doc_header}\n{'-' * len(doc_header)}\n{doc_content}\n"`. -/
def formatDoc (jsonParse : String → Option (List (String × String)))
    (i : Nat) (doc : RetrievedDoc) : String :=
  let h := docHeader jsonParse i doc
  h ++ "\n" ++ String.mk (List.replicate h.length '-') ++ "\n" ++
    doc.content_chunk ++ "\n"

/-- The formatted blocks in rank order, numbered from 1 as by
`enumerate(relevant_docs, 1)`. -/
def formattedBlocks (jsonParse : String → Option (List (String × String)))
    (docs : List RetrievedDoc) : List String :=
  (docs.enumFrom 1).map (fun p => formatDoc jsonParse p.1 p.2)

/-- The accumulation loop of `construct_context`
(src/openai-chat/chatbot.py:106-134): keep a running total of the block
lengths and stop (`break`) at the first block whose addition would push the
total over `maxLen`; `total` is the running `total_length`. -/
def contextParts (maxLen : Nat) : Nat → List String → List String
  | _, [] => []
  | total, b :: bs =>
      if total + b.length > maxLen then []
      else b :: contextParts maxLen (total + b.length) bs

/-- Model of `RAGChatbot.construct_context` (src/openai-chat/chatbot.py:101-136) with
`MAX_CONTEXT_LENGTH = maxLen`: empty input gives `""`; otherwise the kept
blocks are joined with `"\n".join(context_parts)`. -/
def construct_context (jsonParse : String → Option (List (String × String)))
    (maxLen : Nat) (docs : List RetrievedDoc) : String :=
  if docs = [] then ""
  else String.intercalate "\n" (contextParts maxLen 0 (formattedBlocks jsonParse docs))

/-! ### Store lemmas -/

/-- Inserting never changes the declared vector dimension of the table. -/
theorem insert_embedding_dim (s : EmbeddingsTable) (d : Nat) (cc : String)
    (e : List ℚ) (c : Nat) (m : List (String × String)) :
    (insert_embedding s d cc e c m).2.dim = s.dim := by
  unfold insert_embedding
  by_cases hl : e.length ≠ s.dim
  · simp [hl]
  · simp only [hl, if_false]
    cases s.rows.find? (keyMatches d c) <;> rfl

/-- After a dimension-correct upsert, the key holds exactly one row, carrying
the call's content, embedding and metadata, and the call reports success. -/
theorem insert_embedding_key_state (s : EmbeddingsTable) (d c : Nat)
    (cc : String) (e : List ℚ) (m : List (String × String))
    (he : e.length = s.dim) :
    (insert_embedding s d cc e c m).1.isSome = true ∧
    ∃ rec : EmbeddingRecord,
      (insert_embedding s d cc e c m).2.rows.filter (keyMatches d c) = [rec] ∧
      rec.content_chunk = cc ∧ rec.embedding = e ∧ rec.metadata = m := by
  unfold insert_embedding
  simp only [he, ne_eq, not_true_eq_false, if_false]
  cases hf : s.rows.find? (keyMatches d c) with
  | some old =>
      have hold : keyMatches d c old = true := List.find?_some hf
      have h2 : keyMatches d c
          { old with
            content_chunk := cc
            embedding := e
            metadata := m
            created_at := s.clock } = true := by
        simpa [keyMatches] using hold
      refine ⟨rfl, ⟨{ old with
          content_chunk := cc
          embedding := e
          metadata := m
          created_at := s.clock }, ?_, rfl, rfl, rfl⟩⟩
      rw [List.filter_append, List.filter_filter]
      have h1 : s.rows.filter
          (fun a => keyMatches d c a && !keyMatches d c a) = [] := by
        simp
      simp [h1, h2]
  | none =>
      have h2 : keyMatches d c
          { id := s.nextId
            document_id := d
            content_chunk := cc
            embedding := e
            chunk_index := c
            metadata := m
            created_at := s.clock } = true := by
        simp [keyMatches]
      refine ⟨rfl, ⟨{
          id := s.nextId
          document_id := d
          content_chunk := cc
          embedding := e
          chunk_index := c
          metadata := m
          created_at := s.clock }, ?_, rfl, rfl, rfl⟩⟩
      rw [List.filter_append]
      have h1 : s.rows.filter (keyMatches d c) = [] := by
        rw [List.filter_eq_nil_iff]
        intro r hr
        exact (List.find?_eq_none.mp hf) r hr
      simp [h1, h2]

/-- C4: For every key (documentId, chunkIndex), performing upsert twice
(including with different content) leaves exactly one record for that key,
and that record's content chunk, embedding, and metadata equal the second
call's arguments; the second write replaces the row rather than creating a
duplicate or raising a duplicate-key error. -/
theorem upsert_twice_replaces (s : EmbeddingsTable) (d c : Nat)
    (ca : String) (ea : List ℚ) (ma : List (String × String))
    (cb : String) (eb : List ℚ) (mb : List (String × String))
    (_ha : ea.length = s.dim) (hb : eb.length = s.dim) :
    (insert_embedding (insert_embedding s d ca ea c ma).2 d cb eb c mb).1.isSome
      = true ∧
    ∃ rec : EmbeddingRecord,
      (insert_embedding (insert_embedding s d ca ea c ma).2 d cb eb c
        mb).2.rows.filter (keyMatches d c) = [rec] ∧
      rec.content_chunk = cb ∧ rec.embedding = eb ∧ rec.metadata = mb := by
  have hdim : eb.length = (insert_embedding s d ca ea c ma).2.dim := by
    rw [insert_embedding_dim]; exact hb
  exact insert_embedding_key_state (insert_embedding s d ca ea c ma).2 d c
    cb eb mb hdim

/-- Closed witness for `upsert_twice_replaces`: two upserts of key (1, 0)
with different contents on an initially empty two-dimensional store. -/
theorem upsert_twice_replaces_witness :
    (insert_embedding (insert_embedding ⟨[], 2, 1, 0⟩ 1 "first" [1, 0] 0
      [("a", "1")]).2 1 "second" [0, 1] 0 [("b", "2")]).1.isSome = true ∧
    ∃ rec : EmbeddingRecord,
      (insert_embedding (insert_embedding ⟨[], 2, 1, 0⟩ 1 "first" [1, 0] 0
        [("a", "1")]).2 1 "second" [0, 1] 0 [("b", "2")]).2.rows.filter
        (keyMatches 1 0) = [rec] ∧
      rec.content_chunk = "second" ∧ rec.embedding = [0, 1] ∧
      rec.metadata = [("b", "2")] :=
  upsert_twice_replaces ⟨[], 2, 1, 0⟩ 1 0 "first" [1, 0] [("a", "1")]
    "second" [0, 1] [("b", "2")] rfl rfl

/-- C5: If an upsert fails (storage error), the store's state — including
absence of any record for the key — is exactly what it was before the call:
the write is all-or-nothing, `DatabaseConnection.insert_embedding` reports
the failure as `None` and `EmbeddingGenerator.insert_embedding` as `False`,
and neither partially commits. -/
theorem upsert_failure_leaves_store (s : EmbeddingsTable) (d : Nat)
    (cc : String) (e : List ℚ) (c : Nat) (m : List (String × String))
    (h : (insert_embedding s d cc e c m).1 = none) :
    (insert_embedding s d cc e c m).2 = s ∧
    gen_insert_embedding s d cc e c m = (false, s) := by
  by_cases hl : e.length ≠ s.dim
  · constructor
    · unfold insert_embedding
      simp [hl]
    · unfold gen_insert_embedding insert_embedding
      simp [hl]
  · exfalso
    have hsome : (insert_embedding s d cc e c m).1.isSome = true :=
      (insert_embedding_key_state s d c cc e m (not_not.mp hl)).1
    rw [h] at hsome
    exact Bool.false_ne_true hsome

/-- Closed witness for `upsert_failure_leaves_store`: a one-dimensional
vector rejected by a two-dimensional store leaves the store unchanged. -/
theorem upsert_failure_leaves_store_witness :
    (insert_embedding ⟨[], 2, 1, 0⟩ 1 "x" [1] 0 []).2 = ⟨[], 2, 1, 0⟩ ∧
    gen_insert_embedding ⟨[], 2, 1, 0⟩ 1 "x" [1] 0 [] = (false, ⟨[], 2, 1, 0⟩) :=
  upsert_failure_leaves_store ⟨[], 2, 1, 0⟩ 1 "x" [1] 0 [] rfl

/-! ### Ingestion lemmas -/

/-- A key that is present stays present across any upsert (successful or
failed, same key or another). -/
theorem check_exists_insert_mono (s : EmbeddingsTable) (d c d0 c0 : Nat)
    (cc : String) (e : List ℚ) (m : List (String × String))
    (h : check_embedding_exists s d c = true) :
    check_embedding_exists (insert_embedding s d0 cc e c0 m).2 d c = true := by
  rw [check_embedding_exists, List.find?_isSome] at h ⊢
  obtain ⟨r, hr, hkey⟩ := h
  unfold insert_embedding
  by_cases hl : e.length ≠ s.dim
  · rw [if_pos hl]
    exact ⟨r, hr, hkey⟩
  · rw [if_neg hl]
    cases hf : s.rows.find? (keyMatches d0 c0) with
    | some old =>
        dsimp only
        by_cases hro : keyMatches d0 c0 r = true
        · have hok : keyMatches d0 c0 old = true := List.find?_some hf
          refine ⟨{ old with
              content_chunk := cc
              embedding := e
              metadata := m
              created_at := s.clock }, ?_, ?_⟩
          · simp
          · simp only [keyMatches, Bool.and_eq_true, beq_iff_eq] at hkey hro hok ⊢
            omega
        · refine ⟨r, ?_, hkey⟩
          simp only [List.mem_append]
          left
          rw [List.mem_filter]
          exact ⟨hr, by simp [hro]⟩
    | none =>
        dsimp only
        exact ⟨r, by simp [hr], hkey⟩

/-- A successful upsert leaves its own key present. -/
theorem check_exists_insert_self (s : EmbeddingsTable) (d c : Nat)
    (cc : String) (e : List ℚ) (m : List (String × String))
    (h : (insert_embedding s d cc e c m).1.isSome = true) :
    check_embedding_exists (insert_embedding s d cc e c m).2 d c = true := by
  have he : e.length = s.dim := by
    by_contra hl
    unfold insert_embedding at h
    simp [hl] at h
  obtain ⟨rec, hfilter, -, -, -⟩ := (insert_embedding_key_state s d c cc e m he).2
  rw [check_embedding_exists, List.find?_isSome]
  have : rec ∈ (insert_embedding s d cc e c m).2.rows.filter (keyMatches d c) := by
    rw [hfilter]; exact List.mem_singleton_self rec
  rw [List.mem_filter] at this
  exact ⟨rec, this.1, this.2⟩

/-- One ingestion step never decreases the error counter. -/
theorem processOne_errors_le (embed : String → Option (List ℚ))
    (st : IngestCounts × EmbeddingsTable) (doc : Document) :
    st.1.errors ≤ (processOneDocument embed st doc).1.errors := by
  unfold processOneDocument
  by_cases hch : check_embedding_exists st.2 doc.id 0 = true
  · simp [hch]
  · simp only [hch, if_false]
    cases embed doc.content with
    | none => simp
    | some emb =>
        by_cases hins : (gen_insert_embedding st.2 doc.id doc.content emb 0
            (docMetadata doc)).1 = true
        · simp [hins]
        · simp [hins]

/-- The whole ingestion fold never decreases the error counter. -/
theorem fold_errors_le (embed : String → Option (List ℚ)) :
    ∀ (ds : List Document) (st : IngestCounts × EmbeddingsTable),
    st.1.errors ≤ (ds.foldl (processOneDocument embed) st).1.errors := by
  intro ds
  induction ds with
  | nil => intro st; exact le_rfl
  | cons doc tl ih =>
      intro st
      exact le_trans (processOne_errors_le embed st doc)
        (ih (processOneDocument embed st doc))

/-- An error-free ingestion fold preserves every key that was present and
leaves every visited document's key present. -/
theorem fold_no_errors_all_exist (embed : String → Option (List ℚ)) :
    ∀ (ds : List Document) (cnt : IngestCounts) (s : EmbeddingsTable),
    (ds.foldl (processOneDocument embed) (cnt, s)).1.errors = cnt.errors →
    (∀ d0 c0, check_embedding_exists s d0 c0 = true →
      check_embedding_exists
        (ds.foldl (processOneDocument embed) (cnt, s)).2 d0 c0 = true) ∧
    (∀ doc ∈ ds, check_embedding_exists
      (ds.foldl (processOneDocument embed) (cnt, s)).2 doc.id 0 = true) := by
  intro ds
  induction ds with
  | nil =>
      intro cnt s _
      exact ⟨fun d0 c0 h0 => h0, fun doc hmem => absurd hmem (List.not_mem_nil doc)⟩
  | cons doc tl ih =>
      intro cnt s herr
      rw [List.foldl_cons] at herr ⊢
      have hstep : cnt.errors ≤ (processOneDocument embed (cnt, s) doc).1.errors :=
        processOne_errors_le embed (cnt, s) doc
      have hfold : (processOneDocument embed (cnt, s) doc).1.errors ≤
          (tl.foldl (processOneDocument embed)
            (processOneDocument embed (cnt, s) doc)).1.errors :=
        fold_errors_le embed tl (processOneDocument embed (cnt, s) doc)
      have hstep_eq : (processOneDocument embed (cnt, s) doc).1.errors = cnt.errors := by
        omega
      by_cases hch : check_embedding_exists s doc.id 0 = true
      · have hone : processOneDocument embed (cnt, s) doc =
            ({ cnt with skipped := cnt.skipped + 1 }, s) := by
          unfold processOneDocument
          simp [hch]
        rw [hone] at herr ⊢
        obtain ⟨hpres, hall⟩ := ih { cnt with skipped := cnt.skipped + 1 } s herr
        refine ⟨hpres, ?_⟩
        intro d hd
        rcases List.mem_cons.mp hd with rfl | hmem
        · exact hpres d.id 0 hch
        · exact hall d hmem
      · cases hemb : embed doc.content with
        | none =>
            exfalso
            have : processOneDocument embed (cnt, s) doc =
                ({ cnt with errors := cnt.errors + 1 }, s) := by
              unfold processOneDocument
              simp [hch, hemb]
            rw [this] at hstep_eq
            simp at hstep_eq
        | some emb =>
            by_cases hins : (insert_embedding s doc.id doc.content emb 0
                (docMetadata doc)).1.isSome = true
            · have hone : processOneDocument embed (cnt, s) doc =
                  ({ cnt with processed := cnt.processed + 1 },
                    (insert_embedding s doc.id doc.content emb 0
                      (docMetadata doc)).2) := by
                unfold processOneDocument gen_insert_embedding
                simp [hch, hemb, hins]
              rw [hone] at herr ⊢
              obtain ⟨hpres, hall⟩ := ih _ _ herr
              refine ⟨?_, ?_⟩
              · intro d0 c0 h0
                exact hpres d0 c0
                  (check_exists_insert_mono s d0 c0 doc.id 0 doc.content emb
                    (docMetadata doc) h0)
              · intro d hd
                rcases List.mem_cons.mp hd with rfl | hmem
                · exact hpres d.id 0
                    (check_exists_insert_self s d.id 0 d.content emb
                      (docMetadata d) hins)
                · exact hall d hmem
            · exfalso
              have : processOneDocument embed (cnt, s) doc =
                  ({ cnt with errors := cnt.errors + 1 },
                    (insert_embedding s doc.id doc.content emb 0
                      (docMetadata doc)).2) := by
                unfold processOneDocument gen_insert_embedding
                simp [hch, hemb, hins]
              rw [this] at hstep_eq
              simp at hstep_eq

/-- When every document's key is already present, the ingestion fold only
skips: the counters gain `ds.length` skips and the store is untouched. -/
theorem fold_all_skip (embed : String → Option (List ℚ)) :
    ∀ (ds : List Document) (cnt : IngestCounts) (s : EmbeddingsTable),
    (∀ doc ∈ ds, check_embedding_exists s doc.id 0 = true) →
    ds.foldl (processOneDocument embed) (cnt, s) =
      ({ cnt with skipped := cnt.skipped + ds.length }, s) := by
  intro ds
  induction ds with
  | nil => intro cnt s _; rfl
  | cons doc tl ih =>
      intro cnt s hall
      rw [List.foldl_cons]
      have hone : processOneDocument embed (cnt, s) doc =
          ({ cnt with skipped := cnt.skipped + 1 }, s) := by
        unfold processOneDocument
        simp [hall doc (List.mem_cons_self doc tl)]
      rw [hone, ih { cnt with skipped := cnt.skipped + 1 } s
        (fun d hd => hall d (List.mem_cons_of_mem doc hd))]
      simp only [List.length_cons]
      have harith : cnt.skipped + 1 + tl.length = cnt.skipped + (tl.length + 1) := by
        omega
      rw [harith]

/-- C7: running ingestion a second time on an unchanged document set performs
zero writes: if the first run reports no errors, the second run yields
processedCount 0, skippedCount equal to the number of documents the run
visits (those with non-empty content), errorCount 0, and leaves the store
exactly as the first run left it, because every key is found by the
existence check before any provider call. -/
theorem ingest_twice_idempotent (embed : String → Option (List ℚ))
    (docs : List Document) (s : EmbeddingsTable)
    (h : (process_documents embed docs s).1.errors = 0) :
    process_documents embed docs (process_documents embed docs s).2 =
      ({ processed := 0, skipped := (get_all_documents docs).length, errors := 0 },
        (process_documents embed docs s).2) := by
  unfold process_documents at h ⊢
  have hall := (fold_no_errors_all_exist embed (get_all_documents docs)
    ⟨0, 0, 0⟩ s h).2
  rw [fold_all_skip embed (get_all_documents docs) ⟨0, 0, 0⟩ _ hall]
  simp

/-- Closed witness for `ingest_twice_idempotent`: one document, an empty
two-dimensional store and a provider that always answers. -/
theorem ingest_twice_idempotent_witness :
    process_documents (fun _ => some [1, 0])
      [{ id := 1, filename := "a.txt", content := "hello", file_type := "txt",
         file_size := 5, processed_at := "" }]
      (process_documents (fun _ => some [1, 0])
        [{ id := 1, filename := "a.txt", content := "hello", file_type := "txt",
           file_size := 5, processed_at := "" }] ⟨[], 2, 1, 0⟩).2 =
      ({ processed := 0,
         skipped := (get_all_documents
           [{ id := 1, filename := "a.txt", content := "hello",
              file_type := "txt", file_size := 5, processed_at := "" }]).length,
         errors := 0 },
        (process_documents (fun _ => some [1, 0])
          [{ id := 1, filename := "a.txt", content := "hello",
             file_type := "txt", file_size := 5, processed_at := "" }]
          ⟨[], 2, 1, 0⟩).2) :=
  ingest_twice_idempotent (fun _ => some [1, 0])
    [{ id := 1, filename := "a.txt", content := "hello", file_type := "txt",
       file_size := 5, processed_at := "" }] ⟨[], 2, 1, 0⟩ (by decide)

/-! ### Context assembler lemmas -/

/-- Total character count of a list of blocks. -/
def blockLengthSum (bs : List String) : Nat := (bs.map String.length).sum

/-- The assembler loop keeps exactly a prefix of the block list: the longest
one whose running total stays within the budget, and it stops at the first
block that would overflow. -/
theorem contextParts_take (maxLen : Nat) :
    ∀ (bs : List String) (total : Nat), total ≤ maxLen →
    ∃ m, contextParts maxLen total bs = bs.take m ∧
      total + blockLengthSum (bs.take m) ≤ maxLen ∧
      (m < bs.length → maxLen < total + blockLengthSum (bs.take (m + 1))) := by
  intro bs
  induction bs with
  | nil =>
      intro total htot
      exact ⟨0, rfl, by simpa [blockLengthSum] using htot, fun h => absurd h (by simp)⟩
  | cons b tl ih =>
      intro total htot
      by_cases hov : total + b.length > maxLen
      · refine ⟨0, ?_, ?_, ?_⟩
        · unfold contextParts
          rw [if_pos hov]
          rfl
        · simpa [blockLengthSum] using htot
        · intro _
          simpa [blockLengthSum] using hov
      · have htot2 : total + b.length ≤ maxLen := Nat.le_of_not_lt hov
        obtain ⟨m, hm, hsum, hstop⟩ := ih (total + b.length) htot2
        refine ⟨m + 1, ?_, ?_, ?_⟩
        · unfold contextParts
          rw [if_neg hov, hm]
          rfl
        · simp only [List.take_succ_cons, blockLengthSum, List.map_cons, List.sum_cons]
          simp only [blockLengthSum] at hsum
          omega
        · intro hlt
          simp only [List.length_cons] at hlt
          have := hstop (by omega)
          simp only [List.take_succ_cons, blockLengthSum, List.map_cons, List.sum_cons]
          simp only [blockLengthSum] at this
          omega

/-- The blocks the assembler keeps always fit the budget together with the
running total they started from. -/
theorem contextParts_sum_le (maxLen : Nat) :
    ∀ (bs : List String) (total : Nat), total ≤ maxLen →
    total + blockLengthSum (contextParts maxLen total bs) ≤ maxLen := by
  intro bs
  induction bs with
  | nil =>
      intro total htot
      simpa [contextParts, blockLengthSum] using htot
  | cons b tl ih =>
      intro total htot
      unfold contextParts
      by_cases hov : total + b.length > maxLen
      · rw [if_pos hov]
        simpa [blockLengthSum] using htot
      · rw [if_neg hov]
        have htot2 : total + b.length ≤ maxLen := Nat.le_of_not_lt hov
        have := ih (total + b.length) htot2
        simp only [blockLengthSum, List.map_cons, List.sum_cons] at this ⊢
        omega

/-- Length of `String.intercalate.go`: the accumulator plus the remaining
blocks plus one separator per remaining block. -/
theorem intercalate_go_length (s : String) :
    ∀ (as : List String) (acc : String),
    (String.intercalate.go acc s as).length =
      acc.length + blockLengthSum as + s.length * as.length := by
  intro as
  induction as with
  | nil =>
      intro acc
      simp [String.intercalate.go, blockLengthSum]
  | cons a tl ih =>
      intro acc
      rw [String.intercalate.go, ih]
      simp only [blockLengthSum, List.map_cons, List.sum_cons, List.length_cons,
        String.length_append]
      ring

/-- Length of `String.intercalate`: the blocks plus one separator between
each consecutive pair. -/
theorem intercalate_length (s : String) (l : List String) :
    (String.intercalate s l).length =
      blockLengthSum l + s.length * (l.length - 1) := by
  cases l with
  | nil => simp [String.intercalate, blockLengthSum]
  | cons a tl =>
      rw [String.intercalate, intercalate_go_length]
      simp only [blockLengthSum, List.map_cons, List.sum_cons, List.length_cons,
        Nat.add_sub_cancel]
      try ring

/-- C8: For every ranked result list, the set of included blocks is a prefix
of the ranked block list, appended in rank order; assembly stops at the first
block whose addition would exceed the budget, so no later block is included
even if it would individually fit, and the assembled context is the join of
that prefix. -/
theorem construct_context_rank_greedy
    (jsonParse : String → Option (List (String × String)))
    (maxLen : Nat) (docs : List RetrievedDoc) :
    ∃ m, contextParts maxLen 0 (formattedBlocks jsonParse docs) =
        (formattedBlocks jsonParse docs).take m ∧
      blockLengthSum ((formattedBlocks jsonParse docs).take m) ≤ maxLen ∧
      (m < (formattedBlocks jsonParse docs).length →
        maxLen < blockLengthSum ((formattedBlocks jsonParse docs).take (m + 1))) ∧
      construct_context jsonParse maxLen docs =
        String.intercalate "\n" ((formattedBlocks jsonParse docs).take m) := by
  obtain ⟨m, hm, hsum, hstop⟩ :=
    contextParts_take maxLen (formattedBlocks jsonParse docs) 0 (Nat.zero_le _)
  refine ⟨m, hm, by simpa using hsum, fun h => by simpa using hstop h, ?_⟩
  unfold construct_context
  by_cases hd : docs = []
  · subst hd
    simp [formattedBlocks, String.intercalate]
  · rw [if_neg hd, hm]

/-- C1 (amended): the assembled context has length at most the budget plus
one separator character per joined gap — the running count bounds the sum of
block lengths by the budget, but the final `"\n".join` adds one uncounted
newline between consecutive blocks. -/
theorem construct_context_length_le
    (jsonParse : String → Option (List (String × String)))
    (maxLen : Nat) (docs : List RetrievedDoc) :
    (construct_context jsonParse maxLen docs).length ≤
      maxLen +
        ((contextParts maxLen 0 (formattedBlocks jsonParse docs)).length - 1) := by
  unfold construct_context
  by_cases hd : docs = []
  · rw [if_pos hd]
    simp
  · rw [if_neg hd]
    rw [intercalate_length]
    have hsum := contextParts_sum_le maxLen (formattedBlocks jsonParse docs) 0
      (Nat.zero_le _)
    simp only [Nat.zero_add] at hsum
    have hlen : ("\n" : String).length = 1 := rfl
    rw [hlen]
    omega

/-- A metadata parser that rejects every string (models `json.loads` raising
on any input it is given). -/
def noJson : String → Option (List (String × String)) := fun _ => none

/-- First document of the budget counterexample: its formatted block is
exactly 100 characters (31-character header, 31 dashes, 35-character chunk,
3 newlines). -/
def budgetDocA : RetrievedDoc :=
  { document_id := 7
    content_chunk := "aaaaaaaaaaaaaaaaaaaaaaaaaaaaaaaaaaa"
    similarity := 0
    metadata := .dict [("filename", "f")] }

/-- Second document of the budget counterexample, also a 100-character
block. -/
def budgetDocB : RetrievedDoc :=
  { document_id := 8
    content_chunk := "bbbbbbbbbbbbbbbbbbbbbbbbbbbbbbbbbbb"
    similarity := 0
    metadata := .dict [("filename", "f")] }

/-- C1 (counterexample): with budget 200 and two blocks of exactly 100
characters each, both blocks pass the running-count check (100 ≤ 200 and
200 ≤ 200), but `"\n".join` inserts an uncounted separator, so the returned
context has 201 characters — the claim "the result length is at most the
budget" is false at this input. -/
theorem construct_context_budget_counterexample :
    ¬ (construct_context noJson 200 [budgetDocA, budgetDocB]).length ≤ 200 := by
  decide

/-- C9: a stored metadata string that the JSON parser rejects is treated as
an empty mapping: the block is assembled exactly as it would be for a
document whose metadata is the empty dict (so the header falls back to the
default `Document {document_id}` label), and no error is propagated. -/
theorem unparsable_metadata_as_empty
    (jsonParse : String → Option (List (String × String)))
    (i : Nat) (doc : RetrievedDoc) (s : String)
    (hmeta : doc.metadata = .str s) (hparse : jsonParse s = none) :
    formatDoc jsonParse i doc = formatDoc jsonParse i { doc with metadata := .dict [] } := by
  simp [formatDoc, docHeader, docMetadataMap, hmeta, hparse]

/-- Closed witness for `unparsable_metadata_as_empty`: a document whose
stored metadata is the unparsable string `"{not json"`. -/
theorem unparsable_metadata_as_empty_witness :
    formatDoc noJson 1
      { document_id := 7, content_chunk := "c", similarity := 0,
        metadata := .str "\x7bnot json" } =
    formatDoc noJson 1
      { document_id := 7, content_chunk := "c", similarity := 0,
        metadata := .dict [] } :=
  unparsable_metadata_as_empty noJson 1
    { document_id := 7, content_chunk := "c", similarity := 0,
      metadata := .str "\x7bnot json" } "\x7bnot json" rfl rfl

/-! ### Stable-sort lemmas for the search pipeline -/

section SortLemmas

variable {α : Type} (r : α → α → Prop) [DecidableRel r]

/-- Inserting an element that is below the whole list puts it at the head. -/
theorem orderedInsert_of_forall_le (a : α) (N : List α) (h : ∀ b ∈ N, r a b) :
    N.orderedInsert r a = a :: N := by
  cases N with
  | nil => rfl
  | cons b N' =>
      exact List.orderedInsert_of_le r N' (h b (List.mem_cons_self b N'))

/-- Filtering commutes with an ordered insert of a kept element, over a
sorted list. -/
theorem filter_orderedInsert_kept (p : α → Bool) [IsTotal α r] [IsTrans α r]
    (a : α) (hpa : p a = true) :
    ∀ L : List α, L.Sorted r →
    (L.orderedInsert r a).filter p = (L.filter p).orderedInsert r a := by
  intro L
  induction L with
  | nil =>
      intro _
      simp [hpa]
  | cons b L' ih =>
      intro hsort
      by_cases hab : r a b
      · rw [List.orderedInsert_of_le r L' hab]
        by_cases hpb : p b = true
        · rw [List.filter_cons_of_pos hpa, List.filter_cons_of_pos hpb,
            List.orderedInsert_of_le r (L'.filter p) hab]
        · have hpb' : p b = false := Bool.eq_false_iff.mpr hpb
          rw [List.filter_cons_of_pos hpa, List.filter_cons_of_neg (by simp [hpb'])]
          rw [orderedInsert_of_forall_le r a (L'.filter p)]
          intro c hc
          have hcL : c ∈ L' := List.mem_of_mem_filter hc
          exact Trans.trans hab (List.rel_of_sorted_cons hsort c hcL)
      · rw [List.orderedInsert, if_neg hab]
        by_cases hpb : p b = true
        · rw [List.filter_cons_of_pos hpb, List.filter_cons_of_pos hpb,
            ih hsort.tail, List.orderedInsert, if_neg hab]
        · have hpb' : p b = false := Bool.eq_false_iff.mpr hpb
          rw [List.filter_cons_of_neg (by simp [hpb']),
            List.filter_cons_of_neg (by simp [hpb']), ih hsort.tail]

/-- Filtering out the inserted element leaves the filtered list unchanged. -/
theorem filter_orderedInsert_dropped (p : α → Bool) (a : α) (hpa : p a = false) :
    ∀ L : List α, (L.orderedInsert r a).filter p = L.filter p := by
  intro L
  induction L with
  | nil => simp [hpa]
  | cons b L' ih =>
      by_cases hab : r a b
      · rw [List.orderedInsert_of_le r L' hab,
          List.filter_cons_of_neg (by simp [hpa])]
      · rw [List.orderedInsert, if_neg hab]
        by_cases hpb : p b = true
        · rw [List.filter_cons_of_pos hpb, List.filter_cons_of_pos hpb, ih]
        · have hpb' : p b = false := Bool.eq_false_iff.mpr hpb
          rw [List.filter_cons_of_neg (by simp [hpb']),
            List.filter_cons_of_neg (by simp [hpb']), ih]

/-- Insertion sort (a stable sort) commutes with filtering. -/
theorem insertionSort_filter_comm (p : α → Bool) [IsTotal α r] [IsTrans α r] :
    ∀ l : List α, (l.insertionSort r).filter p = (l.filter p).insertionSort r := by
  intro l
  induction l with
  | nil => rfl
  | cons a l ih =>
      rw [List.insertionSort]
      by_cases hpa : p a = true
      · rw [filter_orderedInsert_kept r p a hpa (l.insertionSort r)
          (List.sorted_insertionSort r l), ih, List.filter_cons_of_pos hpa,
          List.insertionSort]
      · have hpa' : p a = false := Bool.eq_false_iff.mpr hpa
        rw [filter_orderedInsert_dropped r p a hpa', ih,
          List.filter_cons_of_neg (by simp [hpa'])]

/-- Stability: the elements of one tie class (any set of elements that are
all mutually related) come out of insertion sort in their input order. -/
theorem insertionSort_filter_ties (p : α → Bool) [IsTotal α r] [IsTrans α r]
    (hcls : ∀ a b, p a = true → p b = true → r a b) :
    ∀ l : List α, (l.insertionSort r).filter p = l.filter p := by
  intro l
  induction l with
  | nil => rfl
  | cons a l ih =>
      rw [List.insertionSort]
      by_cases hpa : p a = true
      · rw [filter_orderedInsert_kept r p a hpa (l.insertionSort r)
          (List.sorted_insertionSort r l), ih,
          orderedInsert_of_forall_le r a (l.filter p)
            (fun b hb => hcls a b hpa (List.of_mem_filter hb)),
          List.filter_cons_of_pos hpa]
      · have hpa' : p a = false := Bool.eq_false_iff.mpr hpa
        rw [filter_orderedInsert_dropped r p a hpa', ih,
          List.filter_cons_of_neg (by simp [hpa'])]

/-- Over a sorted list, a predicate that is closed downward along the order
keeps exactly a prefix. -/
theorem filter_isPrefix_of_sorted (p : α → Bool) [IsTrans α r]
    (hdc : ∀ a b, r a b → p b = true → p a = true) :
    ∀ L : List α, L.Sorted r → L.filter p <+: L := by
  intro L
  induction L with
  | nil =>
      intro _
      exact List.nil_prefix
  | cons b L' ih =>
      intro hsort
      by_cases hpb : p b = true
      · rw [List.filter_cons_of_pos hpb]
        exact (List.prefix_cons_inj b).mpr (ih hsort.tail)
      · have hpb' : p b = false := Bool.eq_false_iff.mpr hpb
        rw [List.filter_cons_of_neg (by simp [hpb'])]
        have : L'.filter p = [] := by
          rw [List.filter_eq_nil_iff]
          intro c hc hpc
          exact hpb (hdc b c (List.rel_of_sorted_cons hsort c hc) hpc)
        rw [this]
        exact List.nil_prefix

end SortLemmas

/-- The ORDER BY relation is total. -/
instance (dist : List ℚ → List ℚ → ℚ) (q : List ℚ) :
    IsTotal EmbeddingRecord (distLE dist q) :=
  ⟨fun a b => le_total (dist a.embedding q) (dist b.embedding q)⟩

/-- The ORDER BY relation is transitive. -/
instance (dist : List ℚ → List ℚ → ℚ) (q : List ℚ) :
    IsTrans EmbeddingRecord (distLE dist q) :=
  ⟨fun _ _ _ => le_trans⟩

/-- C6: every returned record has similarity at least the threshold, the
results are ordered by similarity descending, at most maxResults records are
returned — exactly min(maxResults, number of qualifying rows), so when fewer
than maxResults qualify all qualifying records are returned (the empty
sequence being a valid non-error outcome). -/
theorem find_similar_search_contract (dist : List ℚ → List ℚ → ℚ)
    (rows : List EmbeddingRecord) (q : List ℚ) (t : ℚ) (k : Nat)
    (out : List SearchResult)
    (h : find_similar_embeddings dist rows q t k = some out) :
    (∀ res ∈ out, t ≤ res.similarity) ∧
    out.Pairwise (fun a b => b.similarity ≤ a.similarity) ∧
    out.length ≤ k ∧
    out.length = min k ((rows.filter (rowQualifies dist q t)).length) ∧
    ((rows.filter (rowQualifies dist q t)).length ≤ k →
      ∀ r ∈ rows.filter (rowQualifies dist q t), toSearchResult dist q r ∈ out) := by
  unfold find_similar_embeddings at h
  by_cases hg : rows.any (fun r => r.embedding.length ≠ q.length)
  · rw [if_pos hg] at h
    exact absurd h (by simp)
  · rw [if_neg hg, Option.some_inj] at h
    subst h
    set F := rows.filter (rowQualifies dist q t) with hF
    refine ⟨?_, ?_, ?_, ?_, ?_⟩
    · intro res hres
      obtain ⟨rec, hrec, hr⟩ := List.mem_map.mp hres
      have hrecF : rec ∈ F := by
        have := List.take_subset k _ hrec
        exact (List.mem_insertionSort (distLE dist q)).mp this
      have hq : rowQualifies dist q t rec = true := List.of_mem_filter hrecF
      rw [rowQualifies, decide_eq_true_eq] at hq
      rw [← hr]
      exact hq
    · have hsorted : (F.insertionSort (distLE dist q)).Sorted (distLE dist q) :=
        List.sorted_insertionSort (distLE dist q) F
      have htake : ((F.insertionSort (distLE dist q)).take k).Sorted (distLE dist q) :=
        List.Pairwise.sublist (List.take_sublist k _) hsorted
      exact List.Pairwise.map (toSearchResult dist q)
        (fun a b hab => sub_le_sub_left hab 1) htake
    · rw [List.length_map, List.length_take, List.length_insertionSort]
      exact min_le_left _ _
    · rw [List.length_map, List.length_take, List.length_insertionSort]
    · intro hle r hr
      have hall : (F.insertionSort (distLE dist q)).take k =
          F.insertionSort (distLE dist q) := by
        apply List.take_of_length_le
        rw [List.length_insertionSort]
        exact hle
      rw [hall]
      exact List.mem_map_of_mem (toSearchResult dist q)
        ((List.mem_insertionSort (distLE dist q)).mpr hr)

/-- A distance function that ignores its arguments; used to instantiate the
search theorems at concrete inputs. -/
def zeroDist (_u _v : List ℚ) : ℚ := 0

/-- Closed witness for `find_similar_search_contract`: the empty store, where
the query returns the (valid, non-error) empty result. -/
theorem find_similar_search_contract_witness :
    (∀ res ∈ ([] : List SearchResult), (0 : ℚ) ≤ res.similarity) ∧
    ([] : List SearchResult).Pairwise (fun a b => b.similarity ≤ a.similarity) ∧
    ([] : List SearchResult).length ≤ 5 ∧
    ([] : List SearchResult).length =
      min 5 ((([] : List EmbeddingRecord).filter (rowQualifies zeroDist [] 0)).length) ∧
    ((([] : List EmbeddingRecord).filter (rowQualifies zeroDist [] 0)).length ≤ 5 →
      ∀ r ∈ ([] : List EmbeddingRecord).filter (rowQualifies zeroDist [] 0),
        toSearchResult zeroDist [] r ∈ ([] : List SearchResult)) :=
  find_similar_search_contract zeroDist [] [] 0 5 [] rfl

/-- C10: the search returns the error value `None` exactly when a stored
vector's length mismatches the query's (the model's internal failure); in
every other case it returns `Some` result list, and a query that merely
matches nothing yields `Some []` — the function itself never conflates the
error value with the valid empty result. -/
theorem find_similar_none_iff_mismatch (dist : List ℚ → List ℚ → ℚ)
    (rows : List EmbeddingRecord) (q : List ℚ) (t : ℚ) (k : Nat) :
    (find_similar_embeddings dist rows q t k = none ↔
      ∃ r ∈ rows, r.embedding.length ≠ q.length) ∧
    (rows.filter (rowQualifies dist q t) = [] →
      (∀ r ∈ rows, r.embedding.length = q.length) →
      find_similar_embeddings dist rows q t k = some []) := by
  constructor
  · unfold find_similar_embeddings
    by_cases hg : rows.any (fun r => r.embedding.length ≠ q.length)
    · rw [if_pos hg]
      exact ⟨fun _ => by simpa using hg, fun _ => rfl⟩
    · rw [if_neg hg]
      constructor
      · intro heq
        exact absurd heq (by simp)
      · intro hex
        exact absurd (by simpa using hex) hg
  · intro hnil hlen
    unfold find_similar_embeddings
    rw [if_neg (by simpa using hlen), hnil]
    simp

/-- Closed witness for `find_similar_none_iff_mismatch` is not needed (no
hypotheses), but the failure case is worth pinning down concretely: a stored
1-dimensional vector against a 2-dimensional query yields `none`, while an
empty store yields `some []`. -/
theorem find_similar_none_vs_empty_example :
    find_similar_embeddings zeroDist
      [{ id := 3, document_id := 3, content_chunk := "z", embedding := [1],
         chunk_index := 0, metadata := [], created_at := 0 }] [1, 0] 0 10 = none ∧
    find_similar_embeddings zeroDist [] [1, 0] 0 10 = some [] := by
  constructor
  · decide
  · rfl

/-- Raising the threshold keeps exactly the stricter qualifiers from the
looser filter. -/
theorem filter_qualifies_of_le (dist : List ℚ → List ℚ → ℚ)
    (rows : List EmbeddingRecord) (q : List ℚ) (t1 t2 : ℚ) (ht : t1 ≤ t2) :
    rows.filter (rowQualifies dist q t2) =
      (rows.filter (rowQualifies dist q t1)).filter (rowQualifies dist q t2) := by
  rw [List.filter_filter]
  apply List.filter_congr
  intro r _
  by_cases h2 : rowQualifies dist q t2 r = true
  · have h1 : rowQualifies dist q t1 r = true := by
      rw [rowQualifies, decide_eq_true_eq] at h2 ⊢
      exact le_trans ht h2
    rw [h2, h1]
    rfl
  · rw [Bool.eq_false_iff.mpr h2]
    rfl

/-- C3: for thresholds t1 ≤ t2 and a fixed query, store and maxResults, the
result sequence for t2 is an initial segment (hence a rank-order-preserving
subsequence) of the result sequence for t1: raising the threshold only
removes lower-ranked entries, never reorders or adds. -/
theorem find_similar_threshold_monotone (dist : List ℚ → List ℚ → ℚ)
    (rows : List EmbeddingRecord) (q : List ℚ) (t1 t2 : ℚ) (k : Nat)
    (out1 out2 : List SearchResult) (ht : t1 ≤ t2)
    (h1 : find_similar_embeddings dist rows q t1 k = some out1)
    (h2 : find_similar_embeddings dist rows q t2 k = some out2) :
    out2 <+: out1 ∧ List.Sublist out2 out1 := by
  unfold find_similar_embeddings at h1 h2
  by_cases hg : rows.any (fun r => r.embedding.length ≠ q.length)
  · rw [if_pos hg] at h1
    exact absurd h1 (by simp)
  · rw [if_neg hg, Option.some_inj] at h1 h2
    subst h1
    subst h2
    set F1 := rows.filter (rowQualifies dist q t1) with hF1
    have hcomb : rows.filter (rowQualifies dist q t2) =
        F1.filter (rowQualifies dist q t2) :=
      filter_qualifies_of_le dist rows q t1 t2 ht
    have hsortcomm : (rows.filter (rowQualifies dist q t2)).insertionSort
        (distLE dist q) =
        (F1.insertionSort (distLE dist q)).filter (rowQualifies dist q t2) := by
      rw [hcomb]
      exact (insertionSort_filter_comm (distLE dist q)
        (rowQualifies dist q t2) F1).symm
    have hpref : (F1.insertionSort (distLE dist q)).filter
        (rowQualifies dist q t2) <+: F1.insertionSort (distLE dist q) := by
      apply filter_isPrefix_of_sorted (distLE dist q) (rowQualifies dist q t2)
      · intro a b hab hb
        rw [rowQualifies, decide_eq_true_eq] at hb ⊢
        exact le_trans hb (sub_le_sub_left hab 1)
      · exact List.sorted_insertionSort (distLE dist q) F1
    have hmain : ((rows.filter (rowQualifies dist q t2)).insertionSort
        (distLE dist q)).take k <+:
        (F1.insertionSort (distLE dist q)).take k := by
      rw [hsortcomm]
      exact hpref.take k
    have hfinal := hmain.map (toSearchResult dist q)
    exact ⟨hfinal, hfinal.sublist⟩

/-- Closed witness for `find_similar_threshold_monotone`: the empty store
with equal thresholds. -/
theorem find_similar_threshold_monotone_witness :
    ([] : List SearchResult) <+: ([] : List SearchResult) ∧
    List.Sublist ([] : List SearchResult) ([] : List SearchResult) :=
  find_similar_threshold_monotone zeroDist [] [] 0 0 5 [] [] le_rfl rfl rfl

/-- C2 (amended): results are ordered by similarity descending, but the SQL
applies no identifier tie-break: candidates with equal similarity appear in
the store's physical row order (insertion sort is stable), so for every
similarity value the returned run of that value is an initial segment of the
qualifying rows with that value in row order — not necessarily in ascending
id order, and the sequence depends on the row order, not only on the store's
contents as a set. -/
theorem find_similar_ties_in_row_order (dist : List ℚ → List ℚ → ℚ)
    (rows : List EmbeddingRecord) (q : List ℚ) (t : ℚ) (k : Nat)
    (out : List SearchResult)
    (h : find_similar_embeddings dist rows q t k = some out) :
    out.Pairwise (fun a b => b.similarity ≤ a.similarity) ∧
    ∀ v : ℚ, out.filter (fun res => res.similarity == v) <+:
      ((rows.filter (fun r => rowQualifies dist q t r &&
        (1 - dist r.embedding q == v))).map (toSearchResult dist q)) := by
  unfold find_similar_embeddings at h
  by_cases hg : rows.any (fun r => r.embedding.length ≠ q.length)
  · rw [if_pos hg] at h
    exact absurd h (by simp)
  · rw [if_neg hg, Option.some_inj] at h
    subst h
    set F := rows.filter (rowQualifies dist q t) with hF
    constructor
    · have hsorted : (F.insertionSort (distLE dist q)).Sorted (distLE dist q) :=
        List.sorted_insertionSort (distLE dist q) F
      have htake : ((F.insertionSort (distLE dist q)).take k).Sorted (distLE dist q) :=
        List.Pairwise.sublist (List.take_sublist k _) hsorted
      exact List.Pairwise.map (toSearchResult dist q)
        (fun a b hab => sub_le_sub_left hab 1) htake
    · intro v
      have h1 : (((F.insertionSort (distLE dist q)).take k).map
            (toSearchResult dist q)).filter (fun res => res.similarity == v) =
          (((F.insertionSort (distLE dist q)).take k).filter
            (fun r => 1 - dist r.embedding q == v)).map (toSearchResult dist q) := by
        rw [List.filter_map]
        rfl
      have h2 : ((F.insertionSort (distLE dist q)).take k).filter
            (fun r => 1 - dist r.embedding q == v) <+:
          (F.insertionSort (distLE dist q)).filter
            (fun r => 1 - dist r.embedding q == v) :=
        List.IsPrefix.filter _ (List.take_prefix k _)
      have h3 : (F.insertionSort (distLE dist q)).filter
            (fun r => 1 - dist r.embedding q == v) =
          F.filter (fun r => 1 - dist r.embedding q == v) := by
        apply insertionSort_filter_ties (distLE dist q)
        intro a b ha hb
        rw [beq_iff_eq] at ha hb
        rw [distLE]
        have : dist a.embedding q = dist b.embedding q := by
          have hv : (1 : ℚ) - dist a.embedding q = 1 - dist b.embedding q := by
            rw [ha, hb]
          exact sub_right_inj.mp hv
        rw [this]
      have h4 : F.filter (fun r => 1 - dist r.embedding q == v) =
          rows.filter (fun r => rowQualifies dist q t r &&
            (1 - dist r.embedding q == v)) := by
        rw [hF, List.filter_filter]
        apply List.filter_congr
        intro r _
        exact Bool.and_comm _ _
      rw [h1]
      have hfinal := List.IsPrefix.map (toSearchResult dist q) h2
      rw [h3, h4] at hfinal
      exact hfinal

/-- Closed witness for `find_similar_ties_in_row_order`: the empty store. -/
theorem find_similar_ties_in_row_order_witness :
    ([] : List SearchResult).Pairwise (fun a b => b.similarity ≤ a.similarity) ∧
    ∀ v : ℚ, (([] : List SearchResult).filter (fun res => res.similarity == v)) <+:
      ((([] : List EmbeddingRecord).filter (fun r => rowQualifies zeroDist [] 0 r &&
        (1 - zeroDist r.embedding [] == v))).map (toSearchResult zeroDist [])) :=
  find_similar_ties_in_row_order zeroDist [] [] 0 5 [] rfl

/-- A store reached by three upserts: insert document 1 (row id 1), insert
document 2 (row id 2), then upsert document 1 again.  The conflicting row is
rewritten, which moves it to the end of the physical heap, so the row with id
2 now physically precedes the row with id 1, and both rows carry the same
embedding `[1, 0]`. -/
def tieStore : EmbeddingsTable :=
  (insert_embedding
    (insert_embedding
      (insert_embedding ⟨[], 2, 1, 0⟩ 1 "alpha" [1, 0] 0 []).2
      2 "beta" [1, 0] 0 []).2
    1 "alpha latest" [1, 0] 0 []).2

/-- The physically first row of `tieStore` (id 2). -/
def tieRowB : EmbeddingRecord :=
  { id := 2, document_id := 2, content_chunk := "beta", embedding := [1, 0],
    chunk_index := 0, metadata := [], created_at := 1 }

/-- The physically second row of `tieStore` (id 1). -/
def tieRowA : EmbeddingRecord :=
  { id := 1, document_id := 1, content_chunk := "alpha latest",
    embedding := [1, 0], chunk_index := 0, metadata := [], created_at := 2 }

/-- C2 (counterexample): on the reachable store `tieStore`, whose two rows
have identical embeddings (hence equal similarity to any query under any
distance function), the search returns the row with the larger id first —
the ORDER BY clause has no id tie-break, so equal-similarity candidates are
not ordered by record identifier ascending. -/
theorem find_similar_id_tiebreak_counterexample :
    ¬ ∀ out : List SearchResult,
      find_similar_embeddings zeroDist tieStore.rows [1, 0] 0 10 = some out →
        out.Pairwise (fun a b => a.similarity = b.similarity → a.id < b.id) := by
  intro hclaim
  have hrows : tieStore.rows = [tieRowB, tieRowA] := by decide
  have hsearch : find_similar_embeddings zeroDist [tieRowB, tieRowA] [1, 0] 0 10 =
      some [toSearchResult zeroDist [1, 0] tieRowB,
        toSearchResult zeroDist [1, 0] tieRowA] := by
    simp [find_similar_embeddings, rowQualifies, distLE, zeroDist,
      List.insertionSort, List.orderedInsert, tieRowB, tieRowA, toSearchResult]
  have hp := hclaim _ (by rw [hrows]; exact hsearch)
  rw [List.pairwise_cons] at hp
  have hlt := hp.1 (toSearchResult zeroDist [1, 0] tieRowA)
    (List.mem_singleton_self _) rfl
  exact absurd hlt (by decide)
